import Mathlib

/-!
Verification of the shAIyar block-processing pipeline.

The definitions below are shallow embeddings of the Python sources:
  * `text_processor.py`   — `TextProcessor.clean_text`, `TextProcessor.analyze_text_block`
  * `src/docx_reader.py`  — `DocxReader.read_docx_text_blocks`
  * `src/llm_interface.py`— `LLMInterface.handle_error` and the shared `invoke` retry loop
  * `src/shaiyar_processor.py` — `ShAIyarProcessor._process_text_block`, `ShAIyarProcessor.process`
  * `src/main.py`         — exit-status logic of `main`

Python strings are modelled as `List Char`; machine-level I/O (file existence,
document readability, the remote model) is modelled by explicit parameters.
-/

/-- Python's whitespace class for `str.strip` / regex `\s` on the ASCII range:
space, tab, newline, carriage return, vertical tab, form feed. -/
def isPySpace (c : Char) : Bool :=
  c == ' ' || c == '\t' || c == '\n' || c == '\r' || c == Char.ofNat 11 || c == Char.ofNat 12

/-- Python `str.strip()`: drop whitespace from the front, then from the back
(the back is handled by reversing, dropping from the front, reversing again). -/
def pyStrip (l : List Char) : List Char :=
  (((l.dropWhile isPySpace).reverse).dropWhile isPySpace).reverse

/-- The substitution `re.sub(r'\s+', ' ', text)` of `TextProcessor.clean_text`:
each maximal run of whitespace becomes a single space.  The flag records
whether the previous character belonged to a whitespace run. -/
def collapseAux : Bool → List Char → List Char
  | _, [] => []
  | prevWS, c :: cs =>
    if isPySpace c then
      if prevWS then collapseAux true cs else ' ' :: collapseAux true cs
    else
      c :: collapseAux false cs

/-- `re.sub(r'\s+', ' ', text)` applied to a whole string (no preceding run). -/
def collapseWS (l : List Char) : List Char :=
  collapseAux false l

/-- `TextProcessor.clean_text`: empty input is returned unchanged (the
`if not text` guard); otherwise whitespace runs are collapsed and the result
is stripped. -/
def clean_text (text : List Char) : List Char :=
  if text = [] then [] else pyStrip (collapseWS text)

-- Sanity checks, matching the spec's examples.
example : clean_text "a   b\n\nc".data = "a b c".data := by decide
example : clean_text "".data = [] := by decide
example : clean_text "  Hello  World ".data = "Hello World".data := by decide

/-- Python `str.split()` (no argument): split on runs of whitespace,
discarding empty pieces.  The accumulator holds the current word reversed. -/
def splitWSAux : List Char → List Char → List (List Char)
  | [], acc => if acc = [] then [] else [acc.reverse]
  | c :: cs, acc =>
    if isPySpace c then
      if acc = [] then splitWSAux cs [] else acc.reverse :: splitWSAux cs []
    else
      splitWSAux cs (c :: acc)

/-- Python `str.split()` with no argument. -/
def pySplitWS (l : List Char) : List (List Char) :=
  splitWSAux l []

/-- Python `str.split('\n')`: split at every newline, keeping empty pieces. -/
def splitNlAux : List Char → List Char → List (List Char)
  | [], acc => [acc.reverse]
  | c :: cs, acc =>
    if c = '\n' then acc.reverse :: splitNlAux cs [] else splitNlAux cs (c :: acc)

/-- Python `str.split('\n')`. -/
def pySplitNl (l : List Char) : List (List Char) :=
  splitNlAux l []

/-- The dictionary returned by `TextProcessor.analyze_text_block`.  The empty
branch of the Python function omits the `average_words_per_line` key, hence
the `Option`.  Python's float division is modelled exactly with `Rat`. -/
structure Analysis where
  word_count : Nat
  character_count : Nat
  line_count : Nat
  is_empty : Bool
  average_words_per_line : Option Rat
deriving DecidableEq

/-- `TextProcessor.analyze_text_block`. -/
def analyze_text_block (text_block : List Char) : Analysis :=
  if text_block = [] then
    { word_count := 0, character_count := 0, line_count := 0,
      is_empty := true, average_words_per_line := none }
  else
    let lines := pySplitNl text_block
    let words := pySplitWS text_block
    { word_count := words.length
      character_count := text_block.length
      line_count := lines.length
      is_empty := false
      average_words_per_line :=
        some (if lines ≠ [] then (words.length : Rat) / (lines.length : Rat) else 0) }

example : (analyze_text_block "a\nb".data).line_count = 2 := by decide
example : (analyze_text_block "a b".data).line_count = 1 := by decide

/-- The paragraph loop of `DocxReader.read_docx_text_blocks`: accumulate
non-blank paragraph texts (each followed by a newline) into `text_block`;
on a blank paragraph, yield the stripped buffer when it is non-empty;
after the last paragraph, yield the remaining buffer when non-empty. -/
def read_blocks_go : List (List Char) → List Char → List (List Char)
  | [], text_block =>
    if text_block ≠ [] then [pyStrip text_block] else []
  | para :: rest, text_block =>
    if pyStrip para = [] then
      if text_block ≠ [] then pyStrip text_block :: read_blocks_go rest []
      else read_blocks_go rest []
    else
      read_blocks_go rest (text_block ++ para ++ ['\n'])

/-- Block extraction from an already-read paragraph list (the `try` body of
`DocxReader.read_docx_text_blocks`). -/
def read_blocks (paragraphs : List (List Char)) : List (List Char) :=
  read_blocks_go paragraphs []

/-- `DocxReader.read_docx_text_blocks`.  The document source is `none` when
`docx.Document(file_path)` raises (file missing or unreadable), in which case
the generator yields the single sentinel `None`; otherwise it yields the
extracted blocks. -/
def read_docx_text_blocks : Option (List (List Char)) → List (Option (List Char))
  | none => [none]
  | some paragraphs => (read_blocks paragraphs).map some

example : read_blocks ["Hello".data, "".data, "World".data] = ["Hello".data, "World".data] := by
  decide
example : read_blocks ["a".data, "b".data, " ".data, "c".data] = ["a\nb".data, "c".data] := by
  decide

/-- The terminal failure raised by the `invoke` retry loop: the f-string
`"Error after {max_retries} retries: {str(error)}"` carries the exhausted
retry count and the original error text. -/
structure TerminalError where
  retries : Nat
  original : List Char
deriving DecidableEq

/-- `LLMInterface.handle_error`.  Returns the new `retry_count`, the optional
terminal error message (`None` means "retry"), and the seconds slept by
`time.sleep(2 ** self.retry_count)` after the increment. -/
def handle_error (max_retries retry_count : Nat) (error : List Char) :
    Nat × Option TerminalError × Nat :=
  if retry_count < max_retries then
    (retry_count + 1, none, 2 ^ (retry_count + 1))
  else
    (0, some ⟨max_retries, error⟩, 0)

deriving instance DecidableEq for Except

/-- Observable outcome of one call to `invoke`: the final `retry_count`,
either the response or the raised terminal error, the total seconds slept
in backoff, and the number of calls made to the underlying `model.invoke`. -/
structure InvokeResult where
  retry_count : Nat
  result : Except TerminalError (List Char)
  sleep_total : Nat
  backend_calls : Nat
deriving DecidableEq

/-- The shared `invoke` retry loop of `GroqInterface` / `OpenAIInterface` /
`GoogleInterface` / `OllamaInterface` (all four bodies are identical).
`backend n` is the outcome of the `(n+1)`-th call to `self.model.invoke`.
On success the counter resets to 0 and the content is returned; on failure
`handle_error` either schedules a retry (counter incremented, backoff slept,
recursive re-invocation) or, when `retry_count` has reached `max_retries`,
resets the counter and raises the terminal error.  The `if` mirrors the
branch of `handle_error`, whose per-branch effects are inlined. -/
def invokeFrom (backend : Nat → Except (List Char) (List Char))
    (max_retries attempt retry_count : Nat) : InvokeResult :=
  match backend attempt with
  | .ok v => ⟨0, .ok v, 0, 1⟩
  | .error e =>
    if retry_count < max_retries then
      let r := invokeFrom backend max_retries (attempt + 1) (retry_count + 1)
      ⟨r.retry_count, r.result, 2 ^ (retry_count + 1) + r.sleep_total, 1 + r.backend_calls⟩
    else
      ⟨0, .error ⟨max_retries, e⟩, 0, 1⟩
termination_by max_retries - retry_count
decreasing_by omega

/-- `invoke` as called by the pipeline: a fresh interface starts with
`retry_count = 0`, and on the success path the counter is 0 again, so every
pipeline-level call starts from counter 0. -/
def invoke (backend : Nat → Except (List Char) (List Char)) (max_retries : Nat) :
    InvokeResult :=
  invokeFrom backend max_retries 0 0

/-- Total backoff slept when `k` retries occur: the i-th retry sleeps `2^i`
seconds for `i = 1..k`. -/
def backoffTotal (k : Nat) : Nat :=
  ((List.range k).map (fun i => 2 ^ (i + 1))).sum

/-- Observable outcome of `ShAIyarProcessor._process_text_block`:
the returned value (`None` on skip or failure), the list of user texts that
reached `self.llm_interface.invoke`, and the analysis passed to the logger. -/
structure BlockOutcome where
  result : Option (List Char)
  invoked : List (List Char)
  logged_analysis : Option Analysis
deriving DecidableEq

/-- `ShAIyarProcessor._process_text_block`.  The model is abstracted as the
function from the cleaned user text to `some response` (successful `invoke`)
or `none` (terminal failure: the raised exception is caught and `None`
returned).  The block is cleaned; an empty cleaned block is skipped before
any model call; otherwise the analysis of the *cleaned* text is logged and
the model invoked once with the cleaned text. -/
def process_text_block (model : List Char → Option (List Char))
    (text_block : List Char) : BlockOutcome :=
  let cleaned_text := clean_text text_block
  if cleaned_text = [] then
    ⟨none, [], none⟩
  else
    let analysis := analyze_text_block cleaned_text
    match model cleaned_text with
    | some result => ⟨some result, [cleaned_text], some analysis⟩
    | none => ⟨none, [cleaned_text], some analysis⟩

/-- Observable actions on the output document inside `ShAIyarProcessor.process`:
`append p` is `output_doc.add_paragraph(p)` and `save` is
`output_doc.save(...)`. -/
inductive Event where
  | append (p : List Char)
  | save
deriving DecidableEq

/-- The block loop of `ShAIyarProcessor.process`.  `is_first` is the
`is_first_block_written` flag (initially `true`).  `None` sentinels are
skipped.  A truthy processed block is appended — preceded by the separator
when a block was already written and the separator is truthy — and the
document is saved immediately after each append.  A falsy result (`None`
or the empty string) leaves the output untouched and processing continues
with the next block.  Returns (successful_blocks, events, invoked texts). -/
def processLoop (model : List Char → Option (List Char)) (sep : List Char) :
    List (Option (List Char)) → Bool → Nat × List Event × List (List Char)
  | [], _ => (0, [], [])
  | none :: rest, is_first => processLoop model sep rest is_first
  | some text_block :: rest, is_first =>
    let o := process_text_block model text_block
    match o.result with
    | some processed =>
      if processed = [] then
        -- Python truthiness: an empty-string result is treated like a failure.
        let r := processLoop model sep rest is_first
        (r.1, r.2.1, o.invoked ++ r.2.2)
      else
        let r := processLoop model sep rest false
        (r.1 + 1,
         (if is_first = false ∧ sep ≠ [] then [Event.append sep] else [])
           ++ Event.append processed :: Event.save :: r.2.1,
         o.invoked ++ r.2.2)
    | none =>
      let r := processLoop model sep rest is_first
      (r.1, r.2.1, o.invoked ++ r.2.2)

/-- Overall result of `ShAIyarProcessor.process`. -/
structure RunResult where
  success : Bool
  successful_blocks : Nat
  total_blocks : Nat
  events : List Event
  invoked : List (List Char)
deriving DecidableEq

/-- `ShAIyarProcessor.process`.  `config_validates` abstracts
`self.config.validate()` (API-key presence and existence of the input and
system-message files); when it raises, the `except` branch returns `False`.
Otherwise the block list is materialised, `total_blocks` counts the non-`None`
entries, the loop runs, and `True` is returned regardless of per-block
failures or of the extraction sentinel. -/
def process (config_validates : Bool) (model : List Char → Option (List Char))
    (sep : List Char) (doc : Option (List (List Char))) : RunResult :=
  if config_validates then
    let text_blocks := read_docx_text_blocks doc
    let total_blocks := (text_blocks.filter (fun b => b.isSome)).length
    let r := processLoop model sep text_blocks true
    ⟨true, r.1, total_blocks, r.2.1, r.2.2⟩
  else
    ⟨false, 0, 0, [], []⟩

/-- Exit-status logic of `main` in `src/main.py`: any exception out of
configuration validation or processor construction (`init_ok = false`, e.g.
unsupported provider or failed model initialisation) lands in the `except`
branch and exits 1; otherwise the exit code is 0 exactly when
`processor.process()` returned `True`. -/
def mainExitCode (config_validates init_ok : Bool)
    (model : List Char → Option (List Char)) (sep : List Char)
    (doc : Option (List (List Char))) : Nat :=
  if config_validates ∧ init_ok then
    if (process config_validates model sep doc).success then 0 else 1
  else 1

/-- The stub model of the spec's end-to-end scenario: uppercase the input. -/
def upperModel : List Char → Option (List Char) :=
  fun s => some (s.map Char.toUpper)

/-- The default separator of `FileConfig`. -/
def defaultSeparator : List Char :=
  "\n*********\n".data

/-! ### Helper lemmas about whitespace stripping and collapsing -/

theorem dropWhile_head?_false {α : Type} (p : α → Bool) :
    ∀ l : List α, ∀ c, (l.dropWhile p).head? = some c → p c = false := by
  intro l
  induction l with
  | nil => intro c h; simp [List.dropWhile] at h
  | cons a as ih =>
    intro c h
    by_cases hp : p a
    · rw [List.dropWhile_cons_of_pos hp] at h
      exact ih c h
    · rw [List.dropWhile_cons_of_neg hp] at h
      simp only [List.head?_cons, Option.some.injEq] at h
      subst h
      simpa using hp

theorem dropWhile_of_head?_false {α : Type} (p : α → Bool) (l : List α)
    (h : ∀ c, l.head? = some c → p c = false) : l.dropWhile p = l := by
  cases l with
  | nil => simp
  | cons a as =>
    have := h a rfl
    rw [List.dropWhile_cons_of_neg (by simp [this])]

theorem dropWhile_dropWhile {α : Type} (p : α → Bool) (l : List α) :
    (l.dropWhile p).dropWhile p = l.dropWhile p :=
  dropWhile_of_head?_false p _ (dropWhile_head?_false p l)

theorem pyStrip_idem (l : List Char) : pyStrip (pyStrip l) = pyStrip l := by
  unfold pyStrip
  have h1 : ((((l.dropWhile isPySpace).reverse.dropWhile isPySpace).reverse).dropWhile
      isPySpace) = ((l.dropWhile isPySpace).reverse.dropWhile isPySpace).reverse := by
    rcases List.eq_nil_or_concat ((l.dropWhile isPySpace).reverse.dropWhile isPySpace)
      with hbn | ⟨bs, x, hbx⟩
    · simp [hbn]
    · rw [List.concat_eq_append] at hbx
      have hx : isPySpace x = false := by
        have hsplit : (l.dropWhile isPySpace).reverse.takeWhile isPySpace ++ (bs ++ [x]) =
            (l.dropWhile isPySpace).reverse := by
          rw [← hbx]; exact List.takeWhile_append_dropWhile ..
        have ha : l.dropWhile isPySpace =
            x :: (bs.reverse ++ ((l.dropWhile isPySpace).reverse.takeWhile isPySpace).reverse) := by
          conv_lhs => rw [← List.reverse_reverse (l.dropWhile isPySpace), ← hsplit]
          simp [List.reverse_append]
        exact dropWhile_head?_false isPySpace l x (by rw [ha]; rfl)
      rw [hbx]
      simp only [List.reverse_append, List.reverse_cons, List.reverse_nil, List.nil_append,
        List.cons_append]
      rw [List.dropWhile_cons_of_neg (by simp [hx])]
  rw [h1, List.reverse_reverse, dropWhile_dropWhile]

theorem pyStrip_eq_nil_iff (l : List Char) :
    pyStrip l = [] ↔ ∀ c ∈ l, isPySpace c = true := by
  unfold pyStrip
  constructor
  · intro h c hc
    rw [List.reverse_eq_nil_iff, List.dropWhile_eq_nil_iff] at h
    rcases (List.takeWhile_append_dropWhile (p := isPySpace) (l := l)).symm ▸ hc with hmem
    rw [List.mem_append] at hmem
    rcases hmem with htk | hdw
    · exact List.mem_takeWhile_imp htk
    · exact h c (List.mem_reverse.mpr hdw)
  · intro h
    have : l.dropWhile isPySpace = [] := List.dropWhile_eq_nil_iff.mpr h
    simp [this]

theorem pyStrip_append_ws (m w : List Char) (hw : ∀ c ∈ w, isPySpace c = true) :
    pyStrip (m ++ w) = pyStrip m := by
  unfold pyStrip
  rw [List.dropWhile_append]
  by_cases hm : (m.dropWhile isPySpace).isEmpty
  · rw [if_pos hm]
    have hwnil : w.dropWhile isPySpace = [] := List.dropWhile_eq_nil_iff.mpr hw
    rw [hwnil]
    rw [List.isEmpty_iff] at hm
    rw [hm]
  · rw [if_neg hm]
    rw [List.reverse_append]
    rw [List.dropWhile_append_of_pos (by intro a hma; exact hw a (List.mem_reverse.mp hma))]

/-- Adjacency relation for cleaned text: two neighbouring characters are never
both whitespace. -/
def NoAdjWS (a b : Char) : Prop :=
  isPySpace a = false ∨ isPySpace b = false

theorem collapseAux_mem (l : List Char) :
    ∀ (flag : Bool) (c : Char), c ∈ collapseAux flag l → isPySpace c = true → c = ' ' := by
  induction l with
  | nil => intro flag c hc; simp [collapseAux] at hc
  | cons a as ih =>
    intro flag c hc hws
    by_cases ha : isPySpace a
    · rw [collapseAux, if_pos ha] at hc
      cases flag with
      | true => exact ih true c hc hws
      | false =>
        simp only [Bool.false_eq_true, if_false, List.mem_cons] at hc
        rcases hc with hc | hc
        · exact hc
        · exact ih true c hc hws
    · rw [collapseAux, if_neg ha] at hc
      rcases List.mem_cons.mp hc with hc | hc
      · subst hc; simp [hws] at ha
      · exact ih false c hc hws

theorem collapseAux_head?_true (l : List Char) :
    ∀ c, (collapseAux true l).head? = some c → isPySpace c = false := by
  induction l with
  | nil => intro c h; simp [collapseAux] at h
  | cons a as ih =>
    intro c h
    by_cases ha : isPySpace a
    · rw [collapseAux, if_pos ha, if_pos rfl] at h
      exact ih c h
    · rw [collapseAux, if_neg ha] at h
      simp only [List.head?_cons, Option.some.injEq] at h
      subst h
      simpa using ha

theorem collapseAux_chain (l : List Char) :
    ∀ flag : Bool, List.Chain' NoAdjWS (collapseAux flag l) := by
  induction l with
  | nil => intro flag; simp [collapseAux]
  | cons a as ih =>
    intro flag
    by_cases ha : isPySpace a
    · rw [collapseAux, if_pos ha]
      cases flag with
      | true => exact ih true
      | false =>
        simp only [Bool.false_eq_true, if_false]
        refine List.chain'_cons'.mpr ⟨?_, ih true⟩
        intro y hy
        exact Or.inr (collapseAux_head?_true as y hy)
    · rw [collapseAux, if_neg ha]
      refine List.chain'_cons'.mpr ⟨?_, ih false⟩
      intro y _
      exact Or.inl (by simpa using ha)

theorem chain'_dropWhile {α : Type} {R : α → α → Prop} (p : α → Bool) :
    ∀ l : List α, List.Chain' R l → List.Chain' R (l.dropWhile p) := by
  intro l
  induction l with
  | nil => intro h; exact h
  | cons a as ih =>
    intro h
    by_cases hp : p a
    · rw [List.dropWhile_cons_of_pos hp]
      exact ih h.tail
    · rw [List.dropWhile_cons_of_neg hp]
      exact h

theorem noAdjWS_symm : ∀ a b : Char, NoAdjWS a b → NoAdjWS b a := by
  intro a b h
  rcases h with h | h
  · exact Or.inr h
  · exact Or.inl h

theorem chain'_noAdjWS_reverse (l : List Char) (h : List.Chain' NoAdjWS l) :
    List.Chain' NoAdjWS l.reverse := by
  rw [List.chain'_reverse]
  exact h.imp (fun {a b} hab => noAdjWS_symm a b hab)

/-- On a list whose whitespace characters are all single spaces with no two
adjacent, `collapseAux false` is the identity. -/
theorem collapseAux_id :
    ∀ l : List Char, List.Chain' NoAdjWS l →
      (∀ c ∈ l, isPySpace c = true → c = ' ') → collapseAux false l = l := by
  intro l
  induction l with
  | nil => intro _ _; rfl
  | cons a as ih =>
    intro hch hsp
    by_cases ha : isPySpace a
    · have haSp : a = ' ' := hsp a (List.mem_cons_self ..) (by simpa using ha)
      rw [collapseAux, if_pos ha]
      simp only [Bool.false_eq_true, if_false]
      cases as with
      | nil => simp [collapseAux, haSp]
      | cons b bs =>
        have hb : isPySpace b = false := by
          rcases (List.chain'_cons.mp hch).1 with h | h
          · rw [h] at ha; exact absurd ha (by simp)
          · exact h
        have htail : collapseAux false (b :: bs) = b :: bs :=
          ih (List.chain'_cons.mp hch).2
            (fun c hc hws => hsp c (List.mem_cons_of_mem a hc) hws)
        rw [collapseAux, if_neg (by simp [hb])] at htail ⊢
        rw [haSp, htail]
    · rw [collapseAux, if_neg ha]
      rw [ih hch.tail (fun c hc hws => hsp c (List.mem_cons_of_mem a hc) hws)]

theorem pyStrip_mem (l : List Char) (c : Char) (hc : c ∈ pyStrip l) : c ∈ l := by
  unfold pyStrip at hc
  rw [List.mem_reverse] at hc
  have h1 := (List.dropWhile_sublist (l := (l.dropWhile isPySpace).reverse)
    (p := isPySpace)).mem hc
  rw [List.mem_reverse] at h1
  exact (List.dropWhile_sublist (l := l) (p := isPySpace)).mem h1

theorem chain'_noAdjWS_pyStrip (l : List Char) (h : List.Chain' NoAdjWS l) :
    List.Chain' NoAdjWS (pyStrip l) := by
  unfold pyStrip
  exact chain'_noAdjWS_reverse _
    (chain'_dropWhile _ _ (chain'_noAdjWS_reverse _ (chain'_dropWhile _ _ h)))

/-- `clean_text` maps every string to a fixed point of itself. -/
theorem clean_text_idem (s : List Char) : clean_text (clean_text s) = clean_text s := by
  by_cases hs : s = []
  · subst hs; rfl
  · have hinner : clean_text s = pyStrip (collapseWS s) := by rw [clean_text, if_neg hs]
    rw [hinner]
    set r := pyStrip (collapseWS s) with hr
    by_cases hrn : r = []
    · rw [hrn]; rfl
    · rw [clean_text, if_neg hrn]
      have hch : List.Chain' NoAdjWS r :=
        chain'_noAdjWS_pyStrip _ (collapseAux_chain s false)
      have hsp : ∀ c ∈ r, isPySpace c = true → c = ' ' := by
        intro c hc hws
        exact collapseAux_mem s false c (pyStrip_mem _ c hc) hws
      rw [collapseWS, collapseAux_id r hch hsp, hr, pyStrip_idem]

/-! ### Helper lemmas about the retry loop -/

theorem invokeFrom_ok (backend : Nat → Except (List Char) (List Char))
    (m a r : Nat) (v : List Char) (h : backend a = .ok v) :
    invokeFrom backend m a r = ⟨0, .ok v, 0, 1⟩ := by
  rw [invokeFrom, h]

theorem invokeFrom_error_lt (backend : Nat → Except (List Char) (List Char))
    (m a r : Nat) (e : List Char) (h : backend a = .error e) (hlt : r < m) :
    invokeFrom backend m a r =
      ⟨(invokeFrom backend m (a + 1) (r + 1)).retry_count,
       (invokeFrom backend m (a + 1) (r + 1)).result,
       2 ^ (r + 1) + (invokeFrom backend m (a + 1) (r + 1)).sleep_total,
       1 + (invokeFrom backend m (a + 1) (r + 1)).backend_calls⟩ := by
  rw [invokeFrom, h]
  simp [hlt]

theorem invokeFrom_error_ge (backend : Nat → Except (List Char) (List Char))
    (m a r : Nat) (e : List Char) (h : backend a = .error e) (hge : ¬r < m) :
    invokeFrom backend m a r = ⟨0, .error ⟨m, e⟩, 0, 1⟩ := by
  rw [invokeFrom, h]
  simp [hge]

/-- `invokeFrom` inlines `handle_error`: on a failing call the two agree. -/
theorem invokeFrom_matches_handle_error (backend : Nat → Except (List Char) (List Char))
    (m a r : Nat) (e : List Char) (h : backend a = .error e) :
    invokeFrom backend m a r =
      match (handle_error m r e).2.1 with
      | some msg => ⟨(handle_error m r e).1, .error msg, (handle_error m r e).2.2, 1⟩
      | none =>
        ⟨(invokeFrom backend m (a + 1) (handle_error m r e).1).retry_count,
         (invokeFrom backend m (a + 1) (handle_error m r e).1).result,
         (handle_error m r e).2.2 +
           (invokeFrom backend m (a + 1) (handle_error m r e).1).sleep_total,
         1 + (invokeFrom backend m (a + 1) (handle_error m r e).1).backend_calls⟩ := by
  by_cases hlt : r < m
  · rw [handle_error, if_pos hlt]
    exact invokeFrom_error_lt backend m a r e h hlt
  · rw [handle_error, if_neg hlt]
    exact invokeFrom_error_ge backend m a r e h hlt

theorem backoffTotal_eq (k : Nat) : backoffTotal k = 2 ^ (k + 1) - 2 := by
  induction k with
  | zero => rfl
  | succ n ih =>
    rw [backoffTotal, List.range_succ, List.map_append, List.sum_append]
    rw [backoffTotal] at ih
    simp only [List.map_cons, List.map_nil, List.sum_cons, List.sum_nil]
    rw [ih]
    have h1 : 2 ^ (n + 2) = 2 ^ (n + 1) * 2 := by rw [pow_succ]
    have h2 : 1 ≤ 2 ^ (n + 1) := Nat.one_le_two_pow
    omega

theorem invokeFrom_allFail (backend : Nat → Except (List Char) (List Char))
    (e : Nat → List Char) (hb : ∀ n, backend n = .error (e n)) (m : Nat) :
    ∀ d a r, r + d = m →
      invokeFrom backend m a r =
        ⟨0, .error ⟨m, e (a + d)⟩, 2 ^ (m + 1) - 2 ^ (r + 1), d + 1⟩ := by
  intro d
  induction d with
  | zero =>
    intro a r hr
    have hge : ¬r < m := by omega
    rw [invokeFrom_error_ge backend m a r (e a) (hb a) hge]
    have hm : m = r := by omega
    subst hm
    simp
  | succ d ih =>
    intro a r hr
    have hlt : r < m := by omega
    rw [invokeFrom_error_lt backend m a r (e a) (hb a) hlt]
    rw [ih (a + 1) (r + 1) (by omega)]
    have hidx : a + 1 + d = a + (d + 1) := by omega
    rw [hidx]
    have hmono : 2 ^ (r + 1 + 1) ≤ 2 ^ (m + 1) :=
      Nat.pow_le_pow_right (by omega) (by omega)
    have hdouble : 2 ^ (r + 1 + 1) = 2 ^ (r + 1) * 2 := by rw [pow_succ]
    dsimp only
    simp only [InvokeResult.mk.injEq]
    refine ⟨trivial, trivial, by omega, by omega⟩

theorem invokeFrom_failThenOk (backend : Nat → Except (List Char) (List Char))
    (v : List Char) (m : Nat) :
    ∀ k a r (e : Nat → List Char) (_ : ∀ i, i < k → backend (a + i) = .error (e i))
      (_ : backend (a + k) = .ok v) (_ : r + k ≤ m),
      invokeFrom backend m a r = ⟨0, .ok v, 2 ^ (r + 1 + k) - 2 ^ (r + 1), k + 1⟩ := by
  intro k
  induction k with
  | zero =>
    intro a r e _ hok _
    rw [invokeFrom_ok backend m a r v hok]
    simp
  | succ k ih =>
    intro a r e hfail hok hle
    have hlt : r < m := by omega
    rw [invokeFrom_error_lt backend m a r (e 0) (by simpa using hfail 0 (by omega)) hlt]
    have hfail' : ∀ i, i < k → backend (a + 1 + i) = .error (e (i + 1)) := by
      intro i hi
      have := hfail (i + 1) (by omega)
      rwa [show a + (i + 1) = a + 1 + i by omega] at this
    have hok' : backend (a + 1 + k) = .ok v := by
      rwa [show a + (k + 1) = a + 1 + k by omega] at hok
    rw [ih (a + 1) (r + 1) (fun i => e (i + 1)) hfail' hok' (by omega)]
    have hmono : 2 ^ (r + 1 + 1) ≤ 2 ^ (r + 1 + 1 + k) :=
      Nat.pow_le_pow_right (by omega) (by omega)
    have hdouble : 2 ^ (r + 1 + 1) = 2 ^ (r + 1) * 2 := by rw [pow_succ]
    have hidx : 2 ^ (r + 1 + 1 + k) = 2 ^ (r + 1 + (k + 1)) := by
      rw [show r + 1 + 1 + k = r + 1 + (k + 1) by omega]
    dsimp only
    simp only [InvokeResult.mk.injEq]
    refine ⟨trivial, trivial, by omega, by omega⟩

/-! ### Helper lemmas about block extraction and cleaning -/

theorem collapseAux_mem_or (l : List Char) :
    ∀ (flag : Bool) (c : Char), c ∈ collapseAux flag l → c ∈ l ∨ c = ' ' := by
  induction l with
  | nil => intro flag c hc; simp [collapseAux] at hc
  | cons a as ih =>
    intro flag c hc
    by_cases ha : isPySpace a
    · rw [collapseAux, if_pos ha] at hc
      cases flag with
      | true =>
        rcases ih true c hc with h | h
        · exact Or.inl (List.mem_cons_of_mem a h)
        · exact Or.inr h
      | false =>
        simp only [Bool.false_eq_true, if_false, List.mem_cons] at hc
        rcases hc with hc | hc
        · exact Or.inr hc
        · rcases ih true c hc with h | h
          · exact Or.inl (List.mem_cons_of_mem a h)
          · exact Or.inr h
    · rw [collapseAux, if_neg ha] at hc
      rcases List.mem_cons.mp hc with hc | hc
      · exact Or.inl (hc ▸ List.mem_cons_self ..)
      · rcases ih false c hc with h | h
        · exact Or.inl (List.mem_cons_of_mem a h)
        · exact Or.inr h

theorem clean_text_of_all_ws (s : List Char) (hws : ∀ c ∈ s, isPySpace c = true) :
    clean_text s = [] := by
  by_cases hs : s = []
  · subst hs; rfl
  · rw [clean_text, if_neg hs, pyStrip_eq_nil_iff]
    intro c hc
    rcases collapseAux_mem_or s false c hc with h | h
    · exact hws c h
    · subst h; decide

theorem pyStrip_ne_nil_of_mem (l : List Char) (c : Char) (hc : c ∈ l)
    (hws : isPySpace c = false) : pyStrip l ≠ [] := by
  intro hnil
  have := (pyStrip_eq_nil_iff l).mp hnil c hc
  rw [this] at hws
  exact absurd hws (by simp)

theorem read_blocks_go_no_empty :
    ∀ (paras : List (List Char)) (buf : List Char),
      buf = [] ∨ pyStrip buf ≠ [] → [] ∉ read_blocks_go paras buf := by
  intro paras
  induction paras with
  | nil =>
    intro buf hbuf
    rw [read_blocks_go]
    by_cases hb : buf ≠ []
    · rw [if_pos hb]
      rcases hbuf with h | h
      · exact absurd h hb
      · simp [h]
    · rw [if_neg hb]
      simp
  | cons para rest ih =>
    intro buf hbuf
    rw [read_blocks_go]
    by_cases hp : pyStrip para = []
    · rw [if_pos hp]
      by_cases hb : buf ≠ []
      · rw [if_pos hb]
        intro hmem
        rcases List.mem_cons.mp hmem with h | h
        · rcases hbuf with h' | h'
          · exact hb h'
          · exact h' h.symm
        · exact ih [] (Or.inl rfl) h
      · rw [if_neg hb]
        exact ih [] (Or.inl rfl)
    · rw [if_neg hp]
      refine ih (buf ++ para ++ ['\n']) (Or.inr ?_)
      have hex : ∃ c ∈ para, isPySpace c = false := by
        by_contra hall
        push_neg at hall
        exact hp ((pyStrip_eq_nil_iff para).mpr (by
          intro c hc
          have := hall c hc
          revert this
          cases isPySpace c <;> simp))
      rcases hex with ⟨c, hc, hcws⟩
      refine pyStrip_ne_nil_of_mem _ c ?_ hcws
      rw [List.append_assoc]
      exact List.mem_append.mpr (Or.inr (List.mem_append.mpr (Or.inl hc)))

theorem read_blocks_all_blank :
    ∀ paras : List (List Char), (∀ p ∈ paras, pyStrip p = []) → read_blocks paras = [] := by
  intro paras
  induction paras with
  | nil => intro _; rfl
  | cons para rest ih =>
    intro h
    rw [read_blocks, read_blocks_go, if_pos (h para (List.mem_cons_self ..))]
    simp only [ne_eq, not_true_eq_false, if_false]
    exact ih (fun p hp => h p (List.mem_cons_of_mem para hp))

theorem newline_ws : ∀ c ∈ ['\n'], isPySpace c = true := by decide

theorem read_blocks_intersperse (blank : List Char) (hblank : pyStrip blank = []) :
    ∀ ps : List (List Char), (∀ q ∈ ps, pyStrip q ≠ []) →
      read_blocks (List.intersperse blank ps) = ps.map pyStrip := by
  intro ps
  induction ps with
  | nil => intro _; rfl
  | cons q qs ih =>
    intro hps
    have hq : pyStrip q ≠ [] := hps q (List.mem_cons_self ..)
    have hqnil : q ++ ['\n'] ≠ [] := by simp
    cases qs with
    | nil =>
      rw [List.intersperse_singleton, read_blocks, read_blocks_go, if_neg hq]
      rw [read_blocks_go]
      rw [List.nil_append, if_pos hqnil, pyStrip_append_ws q ['\n'] newline_ws]
      rfl
    | cons q' rest =>
      rw [List.intersperse_cons_cons, read_blocks, read_blocks_go, if_neg hq]
      rw [read_blocks_go, if_pos hblank, List.nil_append, if_pos hqnil]
      rw [pyStrip_append_ws q ['\n'] newline_ws]
      rw [show read_blocks_go (List.intersperse blank (q' :: rest)) [] =
            read_blocks (List.intersperse blank (q' :: rest)) from rfl]
      rw [ih (fun p hp => hps p (List.mem_cons_of_mem q hp))]
      rfl

/-! ### Helper lemmas about the pipeline -/

theorem process_text_block_empty (model : List Char → Option (List Char))
    (tb : List Char) (h : clean_text tb = []) :
    process_text_block model tb = ⟨none, [], none⟩ := by
  simp [process_text_block, h]

theorem process_text_block_invoked (model : List Char → Option (List Char))
    (tb : List Char) :
    ∀ u ∈ (process_text_block model tb).invoked, u = clean_text tb ∧ u ≠ [] := by
  intro u hu
  by_cases h : clean_text tb = []
  · simp [process_text_block, h] at hu
  · rcases hmod : model (clean_text tb) with _ | r <;>
      simp only [process_text_block, if_neg h, hmod] at hu <;>
      (rw [List.mem_singleton] at hu; exact ⟨hu, hu ▸ h⟩)

theorem process_text_block_result (model : List Char → Option (List Char))
    (tb : List Char) :
    (process_text_block model tb).result =
      if clean_text tb = [] then none else model (clean_text tb) := by
  by_cases h : clean_text tb = []
  · simp [process_text_block, h]
  · rcases hmod : model (clean_text tb) with _ | r <;> simp [process_text_block, h, hmod]

theorem process_text_block_analysis (model : List Char → Option (List Char))
    (tb : List Char) :
    (process_text_block model tb).logged_analysis =
      if clean_text tb = [] then none else some (analyze_text_block (clean_text tb)) := by
  by_cases h : clean_text tb = []
  · simp [process_text_block, h]
  · rcases hmod : model (clean_text tb) with _ | r <;> simp [process_text_block, h, hmod]

theorem processLoop_failed_block (model : List Char → Option (List Char))
    (sep tb : List Char) (rest : List (Option (List Char))) (is_first : Bool)
    (h : (process_text_block model tb).result = none) :
    processLoop model sep (some tb :: rest) is_first =
      ((processLoop model sep rest is_first).1,
       (processLoop model sep rest is_first).2.1,
       (process_text_block model tb).invoked ++ (processLoop model sep rest is_first).2.2) := by
  simp only [processLoop, h]

theorem processLoop_invoked_ne_nil (model : List Char → Option (List Char)) (sep : List Char) :
    ∀ (blocks : List (Option (List Char))) (is_first : Bool),
      ∀ u ∈ (processLoop model sep blocks is_first).2.2, u ≠ [] := by
  intro blocks
  induction blocks with
  | nil => intro is_first u hu; simp [processLoop] at hu
  | cons b rest ih =>
    intro is_first u hu
    cases b with
    | none =>
      rw [processLoop] at hu
      exact ih is_first u hu
    | some tb =>
      rcases hres : (process_text_block model tb).result with _ | processed
      · rw [processLoop_failed_block model sep tb rest is_first hres] at hu
        rcases List.mem_append.mp hu with h | h
        · exact (process_text_block_invoked model tb u h).2
        · exact ih is_first u h
      · by_cases hemp : processed = []
        · simp only [processLoop, hres, hemp, if_pos rfl] at hu
          rcases List.mem_append.mp hu with h | h
          · exact (process_text_block_invoked model tb u h).2
          · exact ih is_first u h
        · simp only [processLoop, hres, if_neg hemp] at hu
          rcases List.mem_append.mp hu with h | h
          · exact (process_text_block_invoked model tb u h).2
          · exact ih false u h

/-! ### Claim theorems -/

/-- Claim C1, counterexample: with `max_retries = 3` and a backend that fails
every call, `invoke` makes 4 calls to the underlying `model.invoke`
(the initial attempt plus 3 retries), not exactly `maxRetries = 3`. -/
theorem C1_counterexample :
    (invoke (fun _ => .error "boom".data) 3).backend_calls ≠ 3 := by
  have h := invokeFrom_allFail (fun _ => .error "boom".data) (fun _ => "boom".data)
    (fun _ => rfl) 3 3 0 0 rfl
  rw [invoke, h]
  decide

/-- Claim C1 (amended): for every backend that raises on every call, `invoke`
raises a terminal failure carrying the original error and the exhausted retry
count after exactly `max_retries + 1` attempts of the underlying remote call
(the initial attempt plus `max_retries` retries), and the retry counter is
reset to 0 afterward. -/
theorem C1_always_fails_terminal (backend : Nat → Except (List Char) (List Char))
    (e : Nat → List Char) (max_retries : Nat)
    (hb : ∀ n, backend n = .error (e n)) :
    (invoke backend max_retries).result = .error ⟨max_retries, e max_retries⟩
    ∧ (invoke backend max_retries).backend_calls = max_retries + 1
    ∧ (invoke backend max_retries).retry_count = 0 := by
  have h := invokeFrom_allFail backend e hb max_retries max_retries 0 0 (by omega)
  rw [invoke, h]
  refine ⟨by simp, rfl, rfl⟩

/-- Witness for C1 at `max_retries = 2` and a constantly failing backend. -/
theorem C1_always_fails_terminal_witness :
    (∀ n : Nat, (fun _ : Nat => (Except.error "boom".data : Except (List Char) (List Char))) n =
      .error ((fun _ : Nat => "boom".data) n))
    ∧ (invoke (fun _ => .error "boom".data) 2).result = .error ⟨2, "boom".data⟩
    ∧ (invoke (fun _ => .error "boom".data) 2).backend_calls = 3 := by
  have h := C1_always_fails_terminal (fun _ => .error "boom".data) (fun _ => "boom".data) 2
    (fun _ => rfl)
  exact ⟨fun _ => rfl, h.1, h.2.1⟩

/-- Claim C2: a backend failing exactly `k < max_retries` times and then
succeeding makes `invoke` return the success value with the retry counter
left at 0, having slept exactly `2^1 + 2^2 + ... + 2^k` seconds of backoff
(the i-th retry sleeps `2^i` seconds, starting at 2). -/
theorem C2_fail_k_then_succeed (backend : Nat → Except (List Char) (List Char))
    (e : Nat → List Char) (v : List Char) (max_retries k : Nat)
    (hfail : ∀ i, i < k → backend i = .error (e i))
    (hok : backend k = .ok v)
    (hk : k < max_retries) :
    (invoke backend max_retries).result = .ok v
    ∧ (invoke backend max_retries).retry_count = 0
    ∧ (invoke backend max_retries).sleep_total = backoffTotal k := by
  have hfail' : ∀ i, i < k → backend (0 + i) = .error (e i) := by
    intro i hi
    rw [Nat.zero_add]
    exact hfail i hi
  have h := invokeFrom_failThenOk backend v max_retries k 0 0 e hfail'
    (by rw [Nat.zero_add]; exact hok) (by omega)
  rw [invoke, h, backoffTotal_eq]
  refine ⟨rfl, rfl, ?_⟩
  have h1 : 0 + 1 + k = k + 1 := by omega
  rw [h1]
  norm_num

/-- Witness for C2: two failures then success, `max_retries = 3`;
total backoff is `2 + 4 = 6` seconds. -/
theorem C2_fail_k_then_succeed_witness :
    (∀ i, i < 2 →
      (fun n : Nat => if n < 2 then (Except.error "x".data : Except (List Char) (List Char))
        else .ok "y".data) i = .error ((fun _ : Nat => "x".data) i))
    ∧ ((fun n : Nat => if n < 2 then (Except.error "x".data : Except (List Char) (List Char))
        else .ok "y".data) 2 = .ok "y".data)
    ∧ 2 < 3
    ∧ (invoke (fun n => if n < 2 then .error "x".data else .ok "y".data) 3).result = .ok "y".data
    ∧ (invoke (fun n => if n < 2 then .error "x".data else .ok "y".data) 3).sleep_total =
        backoffTotal 2 := by
  have h := C2_fail_k_then_succeed
    (fun n => if n < 2 then .error "x".data else .ok "y".data)
    (fun _ => "x".data) "y".data 3 2 (by decide) (by decide) (by decide)
  exact ⟨by decide, by decide, by decide, h.1, h.2.2⟩

/-- Claim C3: for documents of non-blank paragraphs separated by exactly one
blank paragraph each, extraction yields one block per paragraph, each the
paragraph's stripped text; no extracted block is ever the empty string; and a
document of only blank paragraphs yields no blocks. -/
theorem C3_block_extraction :
    (∀ (ps : List (List Char)) (blank : List Char),
        pyStrip blank = [] → (∀ q ∈ ps, pyStrip q ≠ []) →
          read_blocks (List.intersperse blank ps) = ps.map pyStrip ∧
          (read_blocks (List.intersperse blank ps)).length = ps.length)
    ∧ (∀ paras : List (List Char), [] ∉ read_blocks paras)
    ∧ (∀ paras : List (List Char), (∀ p ∈ paras, pyStrip p = []) → read_blocks paras = []) := by
  refine ⟨?_, ?_, read_blocks_all_blank⟩
  · intro ps blank hb hps
    have h := read_blocks_intersperse blank hb ps hps
    exact ⟨h, by rw [h, List.length_map]⟩
  · intro paras
    exact read_blocks_go_no_empty paras [] (Or.inl rfl)

/-- Witness for C3 on concrete documents. -/
theorem C3_block_extraction_witness :
    (pyStrip " ".data = [] ∧ (∀ q ∈ ["Hello".data, " World ".data], pyStrip q ≠ []) ∧
      read_blocks (List.intersperse " ".data ["Hello".data, " World ".data]) =
        ["Hello".data, "World".data])
    ∧ [] ∉ read_blocks ["a".data, "".data, " ".data, "b".data]
    ∧ ((∀ p ∈ [" ".data, "".data], pyStrip p = []) ∧ read_blocks [" ".data, "".data] = []) := by
  refine ⟨⟨by decide, by decide, ?_⟩, ?_, by decide, ?_⟩
  · have h := (C3_block_extraction.1 ["Hello".data, " World ".data] " ".data
      (by decide) (by decide)).1
    rw [h]
    decide
  · exact C3_block_extraction.2.1 ["a".data, "".data, " ".data, "b".data]
  · exact C3_block_extraction.2.2 [" ".data, "".data] (by decide)

/-- Claim C4: whenever extraction did not fail (the document was readable),
`process` returns `True` no matter how the model behaves on individual
blocks; and a block whose processing returns `None` (terminal model failure)
contributes no output, no save and no success count, the loop continuing
with the remaining blocks unchanged. -/
theorem C4_process_completes :
    (∀ (model : List Char → Option (List Char)) (sep : List Char)
        (paras : List (List Char)),
      (process true model sep (some paras)).success = true)
    ∧ (∀ (model : List Char → Option (List Char)) (sep tb : List Char)
        (rest : List (Option (List Char))) (is_first : Bool),
      (process_text_block model tb).result = none →
        processLoop model sep (some tb :: rest) is_first =
          ((processLoop model sep rest is_first).1,
           (processLoop model sep rest is_first).2.1,
           (process_text_block model tb).invoked ++
             (processLoop model sep rest is_first).2.2)) := by
  refine ⟨?_, ?_⟩
  · intro model sep paras
    simp [process]
  · intro model sep tb rest is_first h
    exact processLoop_failed_block model sep tb rest is_first h

/-- Witness for C4: a model failing on every block. -/
theorem C4_process_completes_witness :
    ((process_text_block (fun _ => none) "x".data).result = none)
    ∧ processLoop (fun _ => none) defaultSeparator [some "x".data] true =
        ((processLoop (fun _ => none) defaultSeparator [] true).1,
         (processLoop (fun _ => none) defaultSeparator [] true).2.1,
         (process_text_block (fun _ => none) "x".data).invoked ++
           (processLoop (fun _ => none) defaultSeparator [] true).2.2) := by
  refine ⟨by decide, ?_⟩
  exact C4_process_completes.2 (fun _ => none) defaultSeparator "x".data [] true (by decide)

/-- Claim C5, counterexample: with a valid configuration (input file exists)
but an unreadable document, extraction yields the failure sentinel and the
process exits with status 0, not a non-zero status. -/
theorem C5_counterexample :
    mainExitCode true true upperModel defaultSeparator none = 0 := by
  decide

/-- Claim C5 (amended): an extraction read failure with a valid configuration
and a constructed processor exits with status 0 — the run is treated as
complete with zero processable blocks; and a configuration-validation or
processor-construction failure (missing input file, missing system-message
file, missing credential, unsupported provider) exits non-zero.  Both parts
are one-directional: other runtime failures inside `process` (such as a
failed output save, not modelled here) also exit non-zero. -/
theorem C5_exit_status :
    (∀ (model : List Char → Option (List Char)) (sep : List Char),
      mainExitCode true true model sep none = 0)
    ∧ (∀ (config_validates init_ok : Bool) (model : List Char → Option (List Char))
        (sep : List Char) (doc : Option (List (List Char))),
      config_validates = false ∨ init_ok = false →
        mainExitCode config_validates init_ok model sep doc = 1) := by
  refine ⟨?_, ?_⟩
  · intro model sep
    simp [mainExitCode, process]
  · intro config_validates init_ok model sep doc h
    rcases h with h | h <;> subst h <;> simp [mainExitCode]

/-- Witness for C5 (amended) at a failing validation. -/
theorem C5_exit_status_witness :
    ((false = false ∨ true = false)
      ∧ mainExitCode false true upperModel defaultSeparator none = 1)
    ∧ mainExitCode true true upperModel defaultSeparator none = 0 := by
  refine ⟨⟨Or.inl rfl, ?_⟩, ?_⟩
  · exact C5_exit_status.2 false true upperModel defaultSeparator none (Or.inl rfl)
  · exact C5_exit_status.1 upperModel defaultSeparator

/-- Claim C6: end-to-end run on blocks "Hello", "World" with an uppercasing
model and the default separator: the output document receives "HELLO", then
the separator, then "WORLD", with a save immediately after each of the two
block appends (two saves, not one at the end), and both blocks succeed. -/
theorem C6_end_to_end :
    process true upperModel defaultSeparator
        (some ["Hello".data, "".data, "World".data]) =
      ⟨true, 2, 2,
       [Event.append "HELLO".data, Event.save, Event.append defaultSeparator,
        Event.append "WORLD".data, Event.save],
       ["Hello".data, "World".data]⟩ := by
  decide

/-- Claim C7, counterexample: for the block "a\nb" the analysis handed to the
logger is computed from the *cleaned* text ("a b", one line), not from the
pre-clean block text ("a\nb", two lines). -/
theorem C7_counterexample :
    (process_text_block (fun s => some s) "a\nb".data).logged_analysis ≠
      some (analyze_text_block "a\nb".data) := by
  decide

/-- Claim C7 (amended): the analyze diagnostic is computed over the
post-clean (cleaned) block text, is pure, and is used only for observability:
the block outcome is a function of the model and the cleaned text alone,
independent of the diagnostic. -/
theorem C7_analysis_post_clean (model : List Char → Option (List Char)) (tb : List Char) :
    (process_text_block model tb).logged_analysis =
      (if clean_text tb = [] then none else some (analyze_text_block (clean_text tb)))
    ∧ (process_text_block model tb).result =
      (if clean_text tb = [] then none else model (clean_text tb)) :=
  ⟨process_text_block_analysis model tb, process_text_block_result model tb⟩

/-- Claim C9: a block whose cleaned text is empty is dropped (result `None`,
no model call, nothing logged) before the model is reached; every user text
that reaches the model is the non-empty cleaned block text; and across a
whole pipeline run no empty string is ever passed to the model. -/
theorem C9_no_empty_to_model :
    (∀ (model : List Char → Option (List Char)) (tb : List Char),
      clean_text tb = [] → process_text_block model tb = ⟨none, [], none⟩)
    ∧ (∀ (model : List Char → Option (List Char)) (tb : List Char),
      ∀ u ∈ (process_text_block model tb).invoked, u = clean_text tb ∧ u ≠ [])
    ∧ (∀ (model : List Char → Option (List Char)) (sep : List Char)
        (blocks : List (Option (List Char))) (is_first : Bool),
      ∀ u ∈ (processLoop model sep blocks is_first).2.2, u ≠ []) :=
  ⟨process_text_block_empty, process_text_block_invoked, processLoop_invoked_ne_nil⟩

/-- Witness for C9 on concrete blocks. -/
theorem C9_no_empty_to_model_witness :
    (clean_text " \n ".data = [] ∧ process_text_block upperModel " \n ".data = ⟨none, [], none⟩)
    ∧ ("Hello".data ∈ (process_text_block upperModel "Hello".data).invoked
        ∧ "Hello".data = clean_text "Hello".data ∧ "Hello".data ≠ [])
    ∧ ("a".data ∈ (processLoop upperModel defaultSeparator [some "a".data] true).2.2
        ∧ "a".data ≠ []) := by
  refine ⟨⟨by decide, ?_⟩, ⟨by decide, ?_⟩, ⟨by decide, ?_⟩⟩
  · exact C9_no_empty_to_model.1 upperModel " \n ".data (by decide)
  · exact C9_no_empty_to_model.2.1 upperModel "Hello".data "Hello".data (by decide)
  · exact C9_no_empty_to_model.2.2 upperModel defaultSeparator [some "a".data] true
      "a".data (by decide)

/-- Claim C8: `clean_text` collapses every run of whitespace characters
(newlines included) into a single space and then trims both ends; in
particular `clean_text "a   b\n\nc" = "a b c"` and `clean_text "" = ""`,
and whitespace-only input yields the empty string. -/
theorem C8_clean_text_contract :
    (∀ s : List Char, clean_text s = pyStrip (collapseWS s))
    ∧ clean_text "a   b\n\nc".data = "a b c".data
    ∧ clean_text "".data = "".data
    ∧ (∀ s : List Char, (∀ c ∈ s, isPySpace c = true) → clean_text s = []) := by
  refine ⟨?_, by decide, by decide, clean_text_of_all_ws⟩
  intro s
  by_cases hs : s = []
  · subst hs; rfl
  · rw [clean_text, if_neg hs]

/-- Witness for C8 on a whitespace-only input. -/
theorem C8_clean_text_contract_witness :
    (∀ c ∈ " \n\t ".data, isPySpace c = true) ∧ clean_text " \n\t ".data = [] := by
  refine ⟨by decide, ?_⟩
  exact C8_clean_text_contract.2.2.2 " \n\t ".data (by decide)

/-- Claim C10: `clean_text` is idempotent. -/
theorem C10_clean_text_idempotent (s : List Char) :
    clean_text (clean_text s) = clean_text s :=
  clean_text_idem s
